import Mathlib

/-!
Shallow embedding of the audio resampling / streaming core of
`mb2-audio-experiments` (`src/resample.rs` and `src/main.rs`).

`f32` arithmetic is embedded as exact rational arithmetic (`ℚ`): the
claims under study concern which values are combined and in what order,
not floating-point rounding.  Machine indices are `Nat`.
-/

namespace MB2Audio

/-- The filter coefficients, `src/resample.rs` lines 7-16: two second-order
sections, each a pair of triples (feed-forward `b`, feedback `a`).  The `f32`
literals are carried as exact decimal rationals. -/
def COEFFS : List (List (List ℚ)) :=
  [ [ [727725493 / 10000000000000, 145545099 / 1000000000000, 727725493 / 10000000000000],
      [1, -166200996 / 100000000, 69457066 / 100000000] ],
    [ [1, 2, 1],
      [1, -182529778 / 100000000, 86105748 / 100000000] ] ]

/-- `biquad`, `src/resample.rs` lines 18-22:
`b[0]*x[0] + b[1]*x[1] + b[2]*x[2] - a[1]*y[0] - a[2]*y[1]`. -/
def biquad (x : List ℚ) (y : List ℚ) (c : List (List ℚ)) : ℚ :=
  let b := c.getD 0 []
  let a := c.getD 1 []
  b.getD 0 0 * x.getD 0 0 + b.getD 1 0 * x.getD 1 0 + b.getD 2 0 * x.getD 2 0
    - a.getD 1 0 * y.getD 0 0 - a.getD 2 0 * y.getD 1 0

/-- `struct Section`, `src/resample.rs` lines 24-28: coefficients `c`,
input history `xs` (`[f32; 3]`), output history `ys` (`[f32; 2]`). -/
structure Section where
  c : List (List ℚ)
  xs : List ℚ
  ys : List ℚ
  deriving Repr, DecidableEq

/-- `Section::new`, `src/resample.rs` lines 31-33: zeroed history. -/
def Section.new (c : List (List ℚ)) : Section :=
  { c := c, xs := [0, 0, 0], ys := [0, 0] }

/-- `Section::filter`, `src/resample.rs` lines 35-48: computes
`y0 = biquad(&xs, &ys, &c)` on the current history, then shifts
`xs[2]=xs[1]; xs[1]=xs[0]; xs[0]=x0` and `ys[1]=ys[0]; ys[0]=y0`,
returning `y0`.  (The source writes `&c` for the section's own
coefficient field.) -/
def Section.filter (s : Section) (x0 : ℚ) : ℚ × Section :=
  let y0 := biquad s.xs s.ys s.c
  (y0, { s with
          xs := [x0, s.xs.getD 0 0, s.xs.getD 1 0],
          ys := [y0, s.ys.getD 0 0] })

/-- C1 (counterexample): the claimed recurrence
`y0 = b0*x0 + b1*x1 + b2*x2 - a1*y0_prev - a2*y1_prev`, with `x0` the sample
passed to this very call, fails at a concrete input: a freshly constructed
first section fed the input `1` returns `0`, while the claimed value is
`biquad [1,0,0] [0,0] COEFFS[0] = b0 ≠ 0`. -/
theorem c1_counterexample :
    (Section.filter (Section.new (COEFFS.getD 0 [])) 1).1 ≠
      biquad [1, 0, 0] [0, 0] (COEFFS.getD 0 []) := by
  simp only [Section.filter, Section.new, biquad, COEFFS]
  norm_num

/-- C1 (amended): `Section::filter` computes its return value from the three
*prior* inputs and two prior outputs only — the sample `x0` passed to this
call does not enter this call's output (the biquad is evaluated on the old
history, before the shift); the history shift happens strictly after the old
state is read: the new `xs` is `[x0, x1, x2]` and the new `ys` is
`[y0, y0_prev]`.  In particular the returned value is independent of `x0`. -/
theorem c1_filter_uses_prior_history (s : Section) (x0 x0' : ℚ) :
    (s.filter x0).1 =
      (s.c.getD 0 []).getD 0 0 * s.xs.getD 0 0
        + (s.c.getD 0 []).getD 1 0 * s.xs.getD 1 0
        + (s.c.getD 0 []).getD 2 0 * s.xs.getD 2 0
        - (s.c.getD 1 []).getD 1 0 * s.ys.getD 0 0
        - (s.c.getD 1 []).getD 2 0 * s.ys.getD 1 0
    ∧ (s.filter x0).1 = (s.filter x0').1
    ∧ (s.filter x0).2.xs = [x0, s.xs.getD 0 0, s.xs.getD 1 0]
    ∧ (s.filter x0).2.ys = [(s.filter x0).1, s.ys.getD 0 0] := by
  refine ⟨rfl, rfl, rfl, rfl⟩

/-- C9: a call to `Section::filter` leaves the coefficient field `c`
unchanged, and the input/output history lengths stay at the values 3 and 2
fixed by `Section::new`. -/
theorem c9_filter_frame (c : List (List ℚ)) (s : Section) (x0 : ℚ) :
    (Section.new c).xs.length = 3 ∧ (Section.new c).ys.length = 2
    ∧ (s.filter x0).2.c = s.c
    ∧ (s.filter x0).2.xs.length = 3 ∧ (s.filter x0).2.ys.length = 2 := by
  refine ⟨rfl, rfl, rfl, rfl, rfl⟩

/-- `struct Upsample16`, `src/resample.rs` lines 51-55, with the fields as
used by `fill` (lines 62-73): `i_out` is the position counter inside the
current 16-sample window, `i_in` the index into the embedded byte source.
The source bytes are `Nat` (Rust `u8`). -/
structure Upsample16 where
  i_out : ℕ
  i_in : ℕ
  source : List ℕ
  deriving Repr, DecidableEq

/-- `Upsample16::new`, `src/resample.rs` lines 58-60: both indices zero. -/
def Upsample16.new (source : List ℕ) : Upsample16 :=
  { i_out := 0, i_in := 0, source := source }

/-- One iteration of the `for s_out in dest` loop of `Upsample16::fill`,
`src/resample.rs` lines 63-71: when the window counter is 0 and source
bytes remain, consume one byte and compute `16.0 * (source[i_in] - 128.0)`,
else compute `0.0`; then advance the counter mod 16.  Returns the computed
per-iteration value together with the new state. -/
def Upsample16.tick (u : Upsample16) : ℚ × Upsample16 :=
  if u.i_out = 0 ∧ u.i_in < u.source.length then
    (16 * (((u.source.getD u.i_in 0 : ℕ) : ℚ) - 128),
     { u with i_in := u.i_in + 1, i_out := (u.i_out + 1) % 16 })
  else
    (0, { u with i_out := (u.i_out + 1) % 16 })

/-- The loop of `Upsample16::fill` over a destination of length `m`:
the list of per-iteration values and the final state. -/
def Upsample16.fillOuts (u : Upsample16) : ℕ → List ℚ × Upsample16
  | 0 => ([], u)
  | m + 1 =>
    let p := u.tick
    let r := p.2.fillOuts m
    (p.1 :: r.1, r.2)

/-- `Upsample16::fill`, `src/resample.rs` lines 62-73: runs the loop and
returns `self.i_in < self.source.len()` evaluated after the loop. -/
def Upsample16.fill (u : Upsample16) (m : ℕ) : (List ℚ × Upsample16) × Bool :=
  let r := u.fillOuts m
  (r, decide (r.2.i_in < r.2.source.length))

/-- A `tick` never changes the source array. -/
lemma Upsample16.tick_source (u : Upsample16) : (u.tick).2.source = u.source := by
  unfold Upsample16.tick
  split <;> rfl

/-- Running the loop never changes the source array. -/
lemma Upsample16.fillOuts_source (u : Upsample16) (m : ℕ) :
    (u.fillOuts m).2.source = u.source := by
  induction m generalizing u with
  | zero => rfl
  | succ m ih =>
    show ((u.tick).2.fillOuts m).2.source = u.source
    rw [ih, Upsample16.tick_source]

/-- The loop produces exactly one value per destination slot. -/
lemma Upsample16.fillOuts_length (u : Upsample16) (m : ℕ) :
    (u.fillOuts m).1.length = m := by
  induction m generalizing u with
  | zero => rfl
  | succ m ih =>
    show ((u.tick).1 :: ((u.tick).2.fillOuts m).1).length = m + 1
    rw [List.length_cons, ih]

/-- Splitting a run of the loop. -/
lemma Upsample16.fillOuts_add (u : Upsample16) (a b : ℕ) :
    u.fillOuts (a + b) =
      ((u.fillOuts a).1 ++ ((u.fillOuts a).2.fillOuts b).1,
       ((u.fillOuts a).2.fillOuts b).2) := by
  induction a generalizing u with
  | zero => simp [Upsample16.fillOuts]
  | succ a ih =>
    have h : a + 1 + b = (a + b) + 1 := by omega
    rw [h]
    show ((u.tick).1 :: ((u.tick).2.fillOuts (a + b)).1, ((u.tick).2.fillOuts (a + b)).2)
      = _
    rw [ih]
    rfl

/-- Once the source index has reached the end of the source array, the loop
only produces `0.0` values and never moves the source index (in particular it
never wraps back to the beginning). -/
lemma Upsample16.fillOuts_exhausted (u : Upsample16) (m : ℕ)
    (h : u.source.length ≤ u.i_in) :
    (u.fillOuts m).1 = List.replicate m 0 ∧ (u.fillOuts m).2.i_in = u.i_in := by
  induction m generalizing u with
  | zero => exact ⟨rfl, rfl⟩
  | succ m ih =>
    have htick : u.tick = (0, { u with i_out := (u.i_out + 1) % 16 }) := by
      unfold Upsample16.tick
      rw [if_neg]
      intro hc
      omega
    have ih' := ih { u with i_out := (u.i_out + 1) % 16 } h
    show ((u.tick).1 :: ((u.tick).2.fillOuts m).1, ((u.tick).2.fillOuts m).2).1
          = List.replicate (m + 1) 0
        ∧ ((u.tick).1 :: ((u.tick).2.fillOuts m).1, ((u.tick).2.fillOuts m).2).2.i_in
          = u.i_in
    rw [htick]
    exact ⟨by rw [List.replicate_succ, ih'.1], ih'.2⟩

/-- State of the upsampler after `k` iterations from a fresh state: the window
counter is `k % 16` and the source index is `⌈k/16⌉`, as long as the run has
not gone past the end of the source. -/
lemma Upsample16.state_after (src : List ℕ) (k : ℕ) (hk : k ≤ 16 * src.length) :
    ((Upsample16.new src).fillOuts k).2 =
      { i_out := k % 16, i_in := (k + 15) / 16, source := src } := by
  induction k with
  | zero =>
    show Upsample16.new src = _
    unfold Upsample16.new
    congr 1
  | succ k ih =>
    have hk' : k ≤ 16 * src.length := by omega
    have hsplit := Upsample16.fillOuts_add (Upsample16.new src) k 1
    have h1 : ∀ v : Upsample16, (v.fillOuts 1).2 = (v.tick).2 := fun v => rfl
    have : ((Upsample16.new src).fillOuts (k + 1)).2
        = ((((Upsample16.new src).fillOuts k).2).tick).2 := by
      rw [hsplit, ← h1]
    rw [this, ih hk']
    unfold Upsample16.tick
    dsimp only
    by_cases hc : k % 16 = 0 ∧ (k + 15) / 16 < src.length
    · rw [if_pos hc]
      have h2 : (k % 16 + 1) % 16 = (k + 1) % 16 := by omega
      have h3 : (k + 15) / 16 + 1 = (k + 1 + 15) / 16 := by omega
      simp only [h2, h3]
    · rw [if_neg hc]
      have hcase : ¬ (k % 16 = 0) := by
        intro h0
        exact hc ⟨h0, by omega⟩
      have h2 : (k % 16 + 1) % 16 = (k + 1) % 16 := by omega
      have h3 : (k + 15) / 16 = (k + 1 + 15) / 16 := by omega
      simp only [h2, h3]

/-- The `k`-th value of a run of `m > k` iterations is the value of the tick
taken from the state reached after `k` iterations. -/
lemma Upsample16.fillOuts_getD (u : Upsample16) (m k : ℕ) (hk : k < m) :
    (u.fillOuts m).1.getD k 0 = (((u.fillOuts k).2).tick).1 := by
  have hm : m = k + (m - k - 1 + 1) := by omega
  rw [hm, Upsample16.fillOuts_add]
  have hlen : (u.fillOuts k).1.length = k := Upsample16.fillOuts_length u k
  rw [List.getD_append_right _ _ _ _ (by omega), hlen]
  simp only [Nat.sub_self]
  rfl

/-- C6: the upsampler's window counter is below 16 initially and after every
tick, and for a fresh upsampler on source `src` the value computed at output
index `k` (for every `k` within the `16 * len` outputs that cover the source)
is the recentered, scaled source sample `16 * (src[k/16] - 128)` exactly when
`k mod 16 = 0`, and `0.0` otherwise. -/
theorem c6_counter_invariant_and_emission :
    (∀ u : Upsample16, ((u.tick).2).i_out < 16)
    ∧ (∀ src : List ℕ, (Upsample16.new src).i_out < 16)
    ∧ (∀ (src : List ℕ) (k : ℕ), k < 16 * src.length →
        ((Upsample16.new src).fillOuts (16 * src.length)).1.getD k 0 =
          if k % 16 = 0 then 16 * (((src.getD (k / 16) 0 : ℕ) : ℚ) - 128) else 0) := by
  refine ⟨?_, ?_, ?_⟩
  · intro u
    unfold Upsample16.tick
    split <;> exact Nat.mod_lt _ (by omega)
  · intro src
    show 0 < 16
    omega
  · intro src k hk
    rw [Upsample16.fillOuts_getD _ _ _ hk,
        Upsample16.state_after src k (le_of_lt hk)]
    unfold Upsample16.tick
    dsimp only
    by_cases h0 : k % 16 = 0
    · have hdiv : (k + 15) / 16 = k / 16 := by omega
      have hlt : k / 16 < src.length := by omega
      rw [if_pos ⟨h0, by omega⟩, if_pos h0]
      simp only [hdiv]
    · rw [if_neg (by intro hc; exact h0 hc.1), if_neg h0]

/-- C6 (witness): for the one-byte source `[200]`, output index 0 is within
range and carries the source term `16 * (200 - 128)`. -/
theorem c6_witness :
    (0 < 16 * [(200 : ℕ)].length)
    ∧ ((Upsample16.new [200]).fillOuts (16 * [(200 : ℕ)].length)).1.getD 0 0 =
        if 0 % 16 = 0 then 16 * ((([(200 : ℕ)].getD (0 / 16) 0 : ℕ) : ℚ) - 128) else 0 :=
  ⟨by decide, c6_counter_invariant_and_emission.2.2 [200] 0 (by decide)⟩

/-- C3 (counterexample): the source does not loop.  For the one-byte source
`[200]`, pull position 16 — the first position after the array is exhausted —
produces `0.0` rather than a source-derived sample (the source-derived value
would be `16 * (200 - 128) ≠ 0`), and `fill` reports exhaustion by returning
`false`. -/
theorem c3_counterexample :
    ((Upsample16.new [200]).fillOuts 17).1.getD 16 0 = 0
    ∧ ((Upsample16.new [200]).fill 17).2 = false
    ∧ (16 : ℚ) * (((200 : ℕ) : ℚ) - 128) ≠ 0 := by
  refine ⟨?_, ?_, by norm_num⟩
  · rw [Upsample16.fillOuts_getD _ _ _ (by omega)]
    have h := Upsample16.state_after [200] 16 (by simp)
    rw [h]
    simp [Upsample16.tick]
  · decide

/-- C3 (amended): the sample source is finite, not looping: once the source
index has reached the end of the array, every subsequent pull produces the
value `0.0` (never a source-derived sample), the source index never wraps
back, and `fill` returns `false` to report exhaustion. -/
theorem c3_source_exhausts (u : Upsample16) (m : ℕ)
    (h : u.source.length ≤ u.i_in) :
    (u.fillOuts m).1 = List.replicate m 0
    ∧ (u.fillOuts m).2.i_in = u.i_in
    ∧ (u.fill m).2 = false := by
  obtain ⟨h1, h2⟩ := Upsample16.fillOuts_exhausted u m h
  refine ⟨h1, h2, ?_⟩
  show decide _ = false
  rw [decide_eq_false_iff_not]
  rw [h2, Upsample16.fillOuts_source]
  omega

/-- C3 (witness): a concrete exhausted state: source `[7]` already consumed. -/
theorem c3_witness :
    (([(7 : ℕ)].length : ℕ) ≤ 1
    ∧ (({ i_out := 0, i_in := 1, source := [7] } : Upsample16).fillOuts 2).1 =
        List.replicate 2 0)
    ∧ (({ i_out := 0, i_in := 1, source := [7] } : Upsample16).fill 2).2 = false :=
  ⟨⟨by decide,
    (c3_source_exhausts { i_out := 0, i_in := 1, source := [7] } 2 (by decide)).1⟩,
   (c3_source_exhausts { i_out := 0, i_in := 1, source := [7] } 2 (by decide)).2.2⟩

/-- C10: `Upsample16::fill` returns `true` exactly when unconsumed source
samples remain after the call (the source index is still below the source
length), and once it has returned `false` every further call returns `false`
and the loop computes only `0.0` values. -/
theorem c10_fill_return_value (u : Upsample16) (m m' : ℕ) :
    (((u.fill m).2 = true) ↔ (u.fillOuts m).2.i_in < u.source.length)
    ∧ ((u.fill m).2 = false →
        (((u.fillOuts m).2).fill m').2 = false
        ∧ (((u.fillOuts m).2).fillOuts m').1 = List.replicate m' 0) := by
  constructor
  · show (decide _ = true) ↔ _
    rw [decide_eq_true_iff, Upsample16.fillOuts_source]
  · intro hfalse
    have hnot : ¬ ((u.fillOuts m).2.i_in < (u.fillOuts m).2.source.length) := by
      have : decide ((u.fillOuts m).2.i_in < (u.fillOuts m).2.source.length) = false :=
        hfalse
      rwa [decide_eq_false_iff_not] at this
    have hex : (u.fillOuts m).2.source.length ≤ (u.fillOuts m).2.i_in := by omega
    obtain ⟨h1, h2⟩ := Upsample16.fillOuts_exhausted ((u.fillOuts m).2) m' hex
    refine ⟨?_, h1⟩
    show decide _ = false
    rw [decide_eq_false_iff_not, h2, Upsample16.fillOuts_source]
    omega

/-- C10 (witness): source `[5]`, 16 pulls consume it, `fill` reports `false`,
and 3 further pulls give `false` again and only zeros. -/
theorem c10_witness :
    ((((Upsample16.new [5]).fill 16).2 = true) ↔
      ((Upsample16.new [5]).fillOuts 16).2.i_in < (Upsample16.new [5]).source.length)
    ∧ ((((Upsample16.new [5]).fillOuts 16).2).fill 3).2 = false
    ∧ ((((Upsample16.new [5]).fillOuts 16).2).fillOuts 3).1 = List.replicate 3 0 := by
  have h := c10_fill_return_value (Upsample16.new [5]) 16 3
  exact ⟨h.1, h.2 (by decide)⟩

/-- Modelled from the spec: `interpolate_zeros`, called by `resample`
(`src/resample.rs` line 90) but not defined anywhere in the sources.  Per
spec §4.1 and the glossary ("zero-stuffing"), it raises the rate by the
integer factor `n` by emitting each input sample followed by `n - 1`
zero-valued samples, so output index `k` is `input[k/n]` when `n` divides
`k` and `0.0` otherwise. -/
def interpolate_zeros : List ℚ → ℕ → List ℚ
  | [], _ => []
  | v :: vs, n => v :: (List.replicate (n - 1) 0 ++ interpolate_zeros vs n)

/-- The per-sample recentering map of `resample`, `src/resample.rs`
lines 87-89: `15.0 * (s as f32 - 128.0)`. -/
def recenter (s : List ℕ) : List ℚ :=
  s.map fun (v : ℕ) => 15 * ((v : ℚ) - 128)

/-- The stateful run of one filter section over a sample stream: each
sample is passed through `Section::filter`, threading the section state. -/
def sectionGo : Section → List ℚ → List ℚ
  | _, [] => []
  | s, v :: vs =>
    let p := s.filter v
    p.1 :: sectionGo p.2 vs

/-- Modelled from the spec: the helper `section`, used by `filter`
(`src/resample.rs` lines 79-82) but not defined anywhere in the sources.
Per spec §4.2, a section consumes the stream one sample at a time through
the biquad recurrence with the given coefficients, starting from zeroed
history (`Section::new`). -/
def runSection (x : List ℚ) (c : List (List ℚ)) : List ℚ :=
  sectionGo (Section.new c) x

/-- `filter`, `src/resample.rs` lines 79-82: two-stage sequential SOS
filter — the first section uses `COEFFS[0]`, and its output stream is fed
to the second section with `COEFFS[1]`. -/
def filter (x : List ℚ) : List ℚ :=
  runSection (runSection x (COEFFS.getD 0 [])) (COEFFS.getD 1 [])

/-- The requantization map of `resample`, `src/resample.rs` lines 92-94:
`(s + 128.0).clamp(0.0, 255.0) as u8` — clamp into `[0, 255]`, then
truncate; the resulting byte is represented as an integer. -/
def requantize (f : ℚ) : ℤ :=
  ⌊min (max (f + 128) 0) 255⌋

/-- `resample`, `src/resample.rs` lines 86-95: recenter and scale the input
bytes, zero-stuff upsample by 16, filter through the two-section cascade,
then recenter to `0..255`, clamp, and truncate to bytes. -/
def resample (s : List ℕ) : List ℤ :=
  (filter (interpolate_zeros (recenter s) 16)).map requantize

/-- The zero-stuffed stream has exactly `16 ×` the input length. -/
lemma interpolate_zeros_length (l : List ℚ) :
    (interpolate_zeros l 16).length = 16 * l.length := by
  induction l with
  | nil => rfl
  | cons v vs ih =>
    show (v :: (List.replicate 15 0 ++ interpolate_zeros vs 16)).length = _
    simp [ih]
    omega

/-- Indexwise description of the zero-stuffed stream. -/
lemma interpolate_zeros_getD (l : List ℚ) (k : ℕ) (hk : k < 16 * l.length) :
    (interpolate_zeros l 16).getD k 0 =
      if k % 16 = 0 then l.getD (k / 16) 0 else 0 := by
  induction l generalizing k with
  | nil => simp at hk
  | cons v vs ih =>
    show (v :: (List.replicate 15 0 ++ interpolate_zeros vs 16)).getD k 0 = _
    match k with
    | 0 => rfl
    | j + 1 =>
      rw [List.getD_cons_succ]
      by_cases hj : j < 15
      · rw [List.getD_append _ _ _ _ (by simpa using hj)]
        rw [if_neg (by omega)]
        rw [List.getD_eq_getElem _ _ (by simpa using hj)]
        exact List.getElem_replicate _ _
      · obtain ⟨j', rfl⟩ := Nat.exists_eq_add_of_le (Nat.le_of_not_lt hj)
        rw [List.getD_append_right _ _ _ _ (by simp)]
        have hj' : j' < 16 * vs.length := by
          simp only [List.length_cons] at hk
          omega
        rw [show 15 + j' - (List.replicate 15 (0 : ℚ)).length = j' by simp]
        rw [ih j' hj']
        by_cases h0 : j' % 16 = 0
        · rw [if_pos h0, if_pos (by omega)]
          have : (15 + j' + 1) / 16 = j' / 16 + 1 := by omega
          rw [this, List.getD_cons_succ]
        · rw [if_neg h0, if_neg (by omega)]

/-- Indexwise description of the recentering map. -/
lemma recenter_getD (s : List ℕ) (k : ℕ) (hk : k < s.length) :
    (recenter s).getD k 0 = 15 * (((s.getD k 0 : ℕ) : ℚ) - 128) := by
  unfold recenter
  rw [List.getD_eq_getElem _ _ (by simpa using hk), List.getElem_map,
      List.getD_eq_getElem _ _ hk]

/-- C2: the upsampling stage of `resample` (recentering map followed by
zero-stuffing with factor `n = 16` and gain `g = 15.0`) turns the byte
sequence `s` into a sequence of length `16 × len(s)` whose index `k` holds
`15 * (s[k/16] - 128)` when `k mod 16 = 0` and `0.0` otherwise. -/
theorem c2_upsampler_zero_stuffing (s : List ℕ) :
    (interpolate_zeros (recenter s) 16).length = 16 * s.length
    ∧ ∀ k, k < 16 * s.length →
        (interpolate_zeros (recenter s) 16).getD k 0 =
          if k % 16 = 0 then 15 * (((s.getD (k / 16) 0 : ℕ) : ℚ) - 128) else 0 := by
  constructor
  · rw [interpolate_zeros_length]
    unfold recenter
    rw [List.length_map]
  · intro k hk
    have hlen : (recenter s).length = s.length := by
      unfold recenter; rw [List.length_map]
    rw [interpolate_zeros_getD _ _ (by omega)]
    by_cases h0 : k % 16 = 0
    · rw [if_pos h0, if_pos h0, recenter_getD _ _ (by omega)]
    · rw [if_neg h0, if_neg h0]

/-- C2 (witness): for `s = [0]`, index 0 is in range and holds
`15 * (0 - 128)`; the theorem applies. -/
theorem c2_witness :
    (0 < 16 * [(0 : ℕ)].length)
    ∧ (interpolate_zeros (recenter [0]) 16).getD 0 0 =
        if 0 % 16 = 0 then 15 * ((([(0 : ℕ)].getD (0 / 16) 0 : ℕ) : ℚ) - 128) else 0 :=
  ⟨by decide, (c2_upsampler_zero_stuffing [0]).2 0 (by decide)⟩

/-- The spec's description of the cascade (§3 "FilterCascade"): the two
sections advance in lockstep over the stream, and for each sample the output
of the first section is passed, unmodified, as the input of the second. -/
def cascadeGo : Section × Section → List ℚ → List ℚ
  | _, [] => []
  | (s1, s2), v :: vs =>
    let p1 := s1.filter v
    let p2 := s2.filter p1.1
    p2.1 :: cascadeGo (p1.2, p2.2) vs

/-- Feeding one section's output stream into another section is the same as
running both sections in lockstep, handing each intermediate output over
verbatim. -/
lemma sectionGo_comp (x : List ℚ) (s1 s2 : Section) :
    sectionGo s2 (sectionGo s1 x) = cascadeGo (s1, s2) x := by
  induction x generalizing s1 s2 with
  | nil => rfl
  | cons v vs ih =>
    show (s2.filter (s1.filter v).1).1 ::
        sectionGo (s2.filter (s1.filter v).1).2 (sectionGo (s1.filter v).2 vs) = _
    rw [ih]
    rfl

/-- C7: `filter` is exactly the two-section cascade in order: the section
with `COEFFS[0]` processes each input sample first, its output is handed
verbatim to the section with `COEFFS[1]`, and that section's output is the
cascade output. -/
theorem c7_cascade_order (x : List ℚ) :
    filter x = cascadeGo (Section.new (COEFFS.getD 0 []), Section.new (COEFFS.getD 1 [])) x
    ∧ filter x = runSection (runSection x (COEFFS.getD 0 [])) (COEFFS.getD 1 []) :=
  ⟨sectionGo_comp x _ _, rfl⟩

/-- A section with zeroed history maps a zero stream to a zero stream and
returns to its initial state after each sample. -/
lemma sectionGo_zero (c : List (List ℚ)) (m : ℕ) :
    sectionGo (Section.new c) (List.replicate m 0) = List.replicate m 0 := by
  induction m with
  | zero => rfl
  | succ m ih =>
    rw [List.replicate_succ]
    show ((Section.new c).filter 0).1 ::
        sectionGo ((Section.new c).filter 0).2 (List.replicate m 0) = _
    have hy : ((Section.new c).filter 0).1 = 0 := by
      show biquad [0, 0, 0] [0, 0] c = 0
      unfold biquad
      simp
    have hs : ((Section.new c).filter 0).2 = Section.new c := by
      unfold Section.filter Section.new
      simp [hy]
      show biquad [0, 0, 0] [0, 0] c = 0
      unfold biquad
      simp
    rw [hy, hs, ih]

/-- Requantization always lands in the byte range. -/
lemma requantize_mem (f : ℚ) : 0 ≤ requantize f ∧ requantize f ≤ 255 := by
  unfold requantize
  constructor
  · have h0 : (0 : ℚ) ≤ min (max (f + 128) 0) 255 :=
      le_min (le_max_right _ _) (by norm_num)
    exact_mod_cast Int.le_floor.mpr (by exact_mod_cast h0)
  · have h255 : min (max (f + 128) 0) 255 ≤ (255 : ℚ) := min_le_right _ _
    calc ⌊min (max (f + 128) 0) 255⌋ ≤ ⌊(255 : ℚ)⌋ := Int.floor_le_floor h255
    _ = 255 := by norm_num

/-- C4: every output of `resample` is the clamped, truncated requantization
`⌊clamp(f + 128, 0, 255)⌋` of the corresponding filtered value `f`, and —
for every input byte sequence — every output lies in `[0, 255]`. -/
theorem c4_requantize_clamp (s : List ℕ) :
    resample s = (filter (interpolate_zeros (recenter s) 16)).map requantize
    ∧ (∀ f : ℚ, 0 ≤ requantize f ∧ requantize f ≤ 255)
    ∧ (∀ o : ℤ, o ∈ resample s → 0 ≤ o ∧ o ≤ 255) := by
  refine ⟨rfl, fun f => requantize_mem f, ?_⟩
  intro o ho
  unfold resample at ho
  obtain ⟨f, _, rfl⟩ := List.mem_map.mp ho
  exact requantize_mem f

/-- All-silence input: `resample [128]` is sixteen bytes of 128. -/
lemma resample_silence : resample [128] = List.replicate 16 (128 : ℤ) := by
  have hrec : recenter [128] = [0] := by
    unfold recenter
    norm_num
  have hiz : interpolate_zeros [0] 16 = List.replicate 16 0 := by
    show (0 : ℚ) :: (List.replicate 15 0 ++ interpolate_zeros [] 16) = _
    show (0 : ℚ) :: (List.replicate 15 0 ++ []) = _
    rw [List.append_nil, ← List.replicate_succ]
  have hfilt : filter (List.replicate 16 0) = List.replicate 16 0 := by
    unfold filter runSection
    rw [sectionGo_zero, sectionGo_zero]
  have hreq : requantize 0 = 128 := by
    unfold requantize
    norm_num
  unfold resample
  rw [hrec, hiz, hfilt, List.map_replicate, hreq]

/-- C4 (witness): the byte 128 is an output of `resample [128]` and the
theorem's bound applies to it. -/
theorem c4_witness :
    ((128 : ℤ) ∈ resample [128]) ∧ (0 ≤ (128 : ℤ) ∧ (128 : ℤ) ≤ 255) :=
  ⟨by rw [resample_silence]; simp,
   (c4_requantize_clamp [128]).2.2 128 (by rw [resample_silence]; simp)⟩

/-- `SAMPLE_RATE`, `src/main.rs` line 24. -/
def SAMPLE_RATE : ℕ := 125000

/-- `BASE_FREQ`, `src/main.rs` line 25 (`1000.0`). -/
def BASE_FREQ : ℚ := 1000

/-- `TARGET_BUFFER_LENGTH`, `src/main.rs` line 26. -/
def TARGET_BUFFER_LENGTH : ℕ := 16384

/-- `SAMPLE_RANGE = 16_000_000 / SAMPLE_RATE`, `src/main.rs` line 27 (= 128). -/
def SAMPLE_RANGE : ℕ := 16000000 / SAMPLE_RATE

/-- The exact rational value of the `f32` constant `core::f32::consts::PI`
used in `src/main.rs`: `13176795 * 2⁻²²`. -/
def PI : ℚ := 13176795 / 4194304

/-- The `libm` floating-point primitives used by `src/main.rs`, abstracted
as unspecified functions on the rational embedding of `f32`.  The theorems
below only assume that `sinf` stays within `[-1, 1]`. -/
structure Libm where
  sinf : ℚ → ℚ
  powf : ℚ → ℚ → ℚ
  logf : ℚ → ℚ

/-- `conv`, `src/main.rs` lines 86-89: map `-1.0..1.0` to a half-amplitude
value: `x ← (0.5*x + 1.0) * 0.5`, then `floorf(x * (SAMPLE_RANGE-1)) as u16`. -/
def conv (x : ℚ) : ℕ :=
  (⌊(1 / 2 * x + 1) * (1 / 2) * ((SAMPLE_RANGE - 1 : ℕ) : ℚ)⌋).toNat

/-- `silence`, `src/main.rs` lines 30-34: every sample is `q(0.0)`. -/
def silence (_L : Libm) (q : ℚ → ℕ) (_f0 : ℚ) (_r : ℕ) (_i : ℕ) : ℕ :=
  q 0

/-- `sine`, `src/main.rs` lines 40-46: sample `i` is
`q(sinf(2π·f0·i·dp))` with `dp = 1/r`. -/
def sine (L : Libm) (q : ℚ → ℕ) (f0 : ℚ) (r : ℕ) (i : ℕ) : ℕ :=
  q (L.sinf (2 * PI * f0 * (i : ℚ) * (1 / (r : ℚ))))

/-- `sweep`, `src/main.rs` lines 53-61: sample `i` is
`q(sinf(2π·f0·ds·(p-1)))` with `ds = 1/log 2` and `p = powf(2, i·dp)`. -/
def sweep (L : Libm) (q : ℚ → ℕ) (f0 : ℚ) (r : ℕ) (i : ℕ) : ℕ :=
  q (L.sinf (2 * PI * f0 * (1 / L.logf 2) * (L.powf 2 ((i : ℚ) * (1 / (r : ℚ))) - 1)))

/-- The chord's three frequencies, `src/main.rs` lines 69-73. -/
def chordFreqs (L : Libm) (f0 : ℚ) : List ℚ :=
  [f0, f0 * L.powf 2 (4 / 12), f0 * L.powf 2 (7 / 12)]

/-- `chord`, `src/main.rs` lines 67-82: sample `i` is `q(acc * gain)` where
`acc` sums `sinf(2π·f·i·dp)` over the three frequencies and
`gain = 1/freqs.len()`. -/
def chord (L : Libm) (q : ℚ → ℕ) (f0 : ℚ) (r : ℕ) (i : ℕ) : ℕ :=
  q (((chordFreqs L f0).map fun f => L.sinf (2 * PI * f * (i : ℚ) * (1 / (r : ℚ)))).sum
      * (1 / ((chordFreqs L f0).length : ℚ)))

/-- `CYCLE = SAMPLE_RATE / (BASE_FREQ as u32)`, `src/main.rs` line 97
(`BASE_FREQ as u32 = 1000`, so `CYCLE = 125`). -/
def CYCLE : ℕ := SAMPLE_RATE / 1000

/-- `LEN`, `src/main.rs` line 100: whole cycles fitting the target buffer. -/
def LEN : ℕ := (TARGET_BUFFER_LENGTH / CYCLE) * CYCLE

/-- `make_wave`, `src/main.rs` lines 95-122: fill the `LEN`-sample buffer
with the generator `g` (applied at `BASE_FREQ`, `SAMPLE_RATE`, with
quantizer `conv`), then set the high bit (`*s |= 0x8000`) of every sample. -/
def make_wave (g : (ℚ → ℕ) → ℚ → ℕ → ℕ → ℕ) : List ℕ :=
  (List.range LEN).map fun i => Nat.lor (g conv BASE_FREQ SAMPLE_RATE i) 0x8000

/-- `waves`, `src/main.rs` line 189. -/
def waves (L : Libm) : List ((ℚ → ℕ) → ℚ → ℕ → ℕ → ℕ) :=
  [silence L, sine L, sweep L, chord L]

/-- The maximum duty cycle configured at `src/main.rs` line 155:
`(16_000_000 / SAMPLE_RATE) as u16 - 1` (= 127). -/
def max_duty : ℕ := 16000000 / SAMPLE_RATE - 1

/-- The quantizer output stays within the duty range for normalized input. -/
lemma conv_le (x : ℚ) (h : |x| ≤ 1) : conv x ≤ 127 := by
  unfold conv
  have hx : x ≤ 1 := (abs_le.mp h).2
  have hrange : ((SAMPLE_RANGE - 1 : ℕ) : ℚ) = 127 := by
    norm_num [SAMPLE_RANGE, SAMPLE_RATE]
  have harg : (1 / 2 * x + 1) * (1 / 2) * ((SAMPLE_RANGE - 1 : ℕ) : ℚ) < 96 := by
    rw [hrange]
    nlinarith
  have hfl : ⌊(1 / 2 * x + 1) * (1 / 2) * ((SAMPLE_RANGE - 1 : ℕ) : ℚ)⌋ < 96 :=
    Int.floor_lt.mpr (by exact_mod_cast harg)
  omega

/-- Setting the high bit of a value in the duty range sets bit 15 and leaves
the magnitude (the low 15 bits) unchanged. -/
lemma lor_high_bit : ∀ a, a ≤ 127 →
    (Nat.lor a 0x8000).testBit 15 = true ∧ (Nat.lor a 0x8000) % 2 ^ 15 = a := by
  decide

/-- Each sample of the buffer built by `make_wave` is the generator value
with the high bit set. -/
lemma make_wave_getD (g : (ℚ → ℕ) → ℚ → ℕ → ℕ → ℕ) (i : ℕ) (hi : i < LEN) :
    (make_wave g).getD i 0 = Nat.lor (g conv BASE_FREQ SAMPLE_RATE i) 0x8000 := by
  unfold make_wave
  rw [List.getD_eq_getElem _ _ (by simpa using hi), List.getElem_map,
      List.getElem_range]

/-- Every generator that `main` installs produces `conv` of a value of
magnitude at most 1, hence a duty value of at most 127. -/
lemma waves_value_le (L : Libm) (hS : ∀ t, |L.sinf t| ≤ 1) (gi i : ℕ)
    (hgi : gi < (waves L).length) :
    ((waves L).getD gi (silence L)) conv BASE_FREQ SAMPLE_RATE i ≤ 127 := by
  have hlen : (waves L).length = 4 := rfl
  rw [hlen] at hgi
  interval_cases gi
  · exact conv_le 0 (by norm_num)
  · exact conv_le _ (hS _)
  · exact conv_le _ (hS _)
  · show chord L conv BASE_FREQ SAMPLE_RATE i ≤ 127
    unfold chord
    apply conv_le
    obtain ⟨ha1, hb1⟩ :=
      abs_le.mp (hS (2 * PI * BASE_FREQ * (i : ℚ) * (1 / (SAMPLE_RATE : ℚ))))
    obtain ⟨ha2, hb2⟩ :=
      abs_le.mp (hS (2 * PI * (BASE_FREQ * L.powf 2 (4 / 12)) * (i : ℚ) *
        (1 / (SAMPLE_RATE : ℚ))))
    obtain ⟨ha3, hb3⟩ :=
      abs_le.mp (hS (2 * PI * (BASE_FREQ * L.powf 2 (7 / 12)) * (i : ℚ) *
        (1 / (SAMPLE_RATE : ℚ))))
    rw [abs_le]
    simp only [chordFreqs, List.map_cons, List.map_nil, List.sum_cons,
      List.sum_nil, List.length_cons, List.length_nil]
    push_cast
    constructor <;> linarith

/-- C8: every 16-bit value of every block built by `make_wave` — for every
installed waveform generator and every buffer position — has bit 15 (the
polarity flag) set, and its low 15 bits carry a duty magnitude of at most
`max_duty` (= 127). -/
theorem c8_block_format (L : Libm) (hS : ∀ t, |L.sinf t| ≤ 1) (gi i : ℕ)
    (hgi : gi < (waves L).length) (hi : i < LEN) :
    ((make_wave ((waves L).getD gi (silence L))).getD i 0).testBit 15 = true
    ∧ (make_wave ((waves L).getD gi (silence L))).getD i 0 % 2 ^ 15 ≤ max_duty := by
  rw [make_wave_getD _ _ hi]
  have hval := waves_value_le L hS gi i hgi
  obtain ⟨h1, h2⟩ := lor_high_bit _ hval
  refine ⟨h1, ?_⟩
  rw [h2]
  have hmd : max_duty = 127 := by decide
  omega

/-- A concrete interpretation of the `libm` primitives (everything zero),
used only to witness the block-format theorem. -/
def zeroLibm : Libm :=
  { sinf := fun _ => 0, powf := fun _ _ => 0, logf := fun _ => 0 }

/-- C8 (witness): the first sample of the silence wave under the zero
interpretation of `libm`. -/
theorem c8_witness :
    ((make_wave ((waves zeroLibm).getD 0 (silence zeroLibm))).getD 0 0).testBit 15 = true
    ∧ (make_wave ((waves zeroLibm).getD 0 (silence zeroLibm))).getD 0 0 % 2 ^ 15 ≤ max_duty :=
  c8_block_format zeroLibm (fun t => by show |(0 : ℚ)| ≤ 1; norm_num)
    0 0 (by decide) (by decide)

/-- `n_waves = waves.len()`, `src/main.rs` line 190 (= 4). -/
def n_waves : ℕ := 4

/-- The state of `main`'s polling loop, `src/main.rs` lines 189-223: the
selected wave index, and which wave's buffer is loaded in each of the two
PWM sequence slots (`speaker.load(Some(samps), Some(samps), true)` loads the
same buffer into both). -/
structure MainState where
  cur_wave : ℕ
  slot0 : ℕ
  slot1 : ℕ
  deriving Repr, DecidableEq

/-- The loop state set up before the loop, `src/main.rs` lines 191-195:
`cur_wave = 0` and both sequence slots loaded with wave 0's buffer. -/
def main_init : MainState :=
  { cur_wave := 0, slot0 := 0, slot1 := 0 }

/-- One iteration of `main`'s polling loop, `src/main.rs` lines 196-223.
`a` and `b` are the button states; `sigA`/`sigB` stand for the per-block
"consumed" completion signals of the hardware sink (modelled so the
double-buffering claim can be stated — the loop body never reads them).
If a button is pressed the wave index is advanced and BOTH sequence slots
are reloaded with the (single, shared) buffer generated for the new wave;
otherwise nothing happens.  The second component records which of the two
blocks the iteration refilled. -/
def mainStep (sigA sigB a b : Bool) (st : MainState) : MainState × Bool × Bool :=
  if a || b then
    let cw := if b then (st.cur_wave + n_waves + 1) % n_waves
              else (st.cur_wave + n_waves - 1) % n_waves
    ({ cur_wave := cw, slot0 := cw, slot1 := cw }, true, true)
  else
    (st, false, false)

/-- The discipline asserted by the claim: a block is refilled only after the
sink has signalled that block's completion. -/
def RefillOnlyAfterSignal : Prop :=
  ∀ (sigA sigB a b : Bool) (st : MainState),
    ((mainStep sigA sigB a b st).2.1 = true → sigA = true)
    ∧ ((mainStep sigA sigB a b st).2.2 = true → sigB = true)

/-- C5 (counterexample): the streamer refills without any completion signal:
from the initial state, a press of button `b` with both completion signals
absent refills both blocks. -/
theorem c5_counterexample : ¬ RefillOnlyAfterSignal := by
  intro h
  have := (h false false false true main_init).1
  simp [mainStep] at this

/-- C5 (amended): the polling loop performs no completion-driven refills at
all: an iteration refills the blocks exactly when a button is pressed — and
then it rewrites BOTH sequence slots with the same freshly generated
buffer — and its entire behavior is independent of the completion signals;
with no button press, nothing is touched. -/
theorem c5_no_signal_driven_refill (sigA sigB a b : Bool) (st : MainState) :
    (mainStep sigA sigB a b st).2.1 = (a || b)
    ∧ (mainStep sigA sigB a b st).2.2 = (a || b)
    ∧ mainStep sigA sigB a b st = mainStep false false a b st
    ∧ (mainStep sigA sigB true b st).1.slot0 = (mainStep sigA sigB true b st).1.slot1
    ∧ (mainStep sigA sigB false false st).1 = st := by
  cases a <;> cases b <;> simp [mainStep]

end MB2Audio
